import Mathlib

/-
Verification of the multilingual review-analysis pipeline.

The definitions below are a shallow embedding of the Python sources:
  backend/services/chunking.py   (chunk_text, process_text_file, process_csv_file)
  backend/services/sentiment.py  (analyze_sentiment)
  backend/app.py                 (upload_file per-chunk loop, generate_summary,
                                  the response payload of the upload route)

Modelling conventions:
  - Python str is modelled by String; len counts characters (code points),
    matching Python len on the inputs considered here.
  - Python str.strip is modelled for the ASCII whitespace characters
    (space, tab, newline, carriage return, vertical tab, form feed).
  - Python float arithmetic is modelled by exact rationals; round(x, n)
    is modelled as rounding to the nearest multiple of 10 ^ (-n).
  - Python exceptions are modelled with Except String; a service that can
    raise is an oracle parameter of type _ -> Except String _.  Services
    whose Python implementation contains a catch-all handler are applied
    through total functions.
  - list(set(...)) is modelled as List.dedup; statements about it only
    compare the results as sets.
-/

/-! ## Python string helpers -/

def isPyWs (c : Char) : Bool :=
  c = ' ' || c = '\t' || c = '\n' || c = '\r' || c = Char.ofNat 11 || c = Char.ofNat 12

/-- Python str.strip(): remove leading and trailing whitespace. -/
def pyStrip (s : String) : String :=
  String.mk (((s.data.dropWhile isPyWs).reverse.dropWhile isPyWs).reverse)

/-- Python str.lower(), ASCII case. -/
def pyLower (s : String) : String :=
  String.mk (s.data.map Char.toLower)

def joinSp (l : List String) : String := String.intercalate " " l

def joinNl (l : List String) : String := String.intercalate "\n" l

/-- Helper for re.split in chunk_text: a match of the pattern
with lookbehind on sentence punctuation is a maximal whitespace run
whose preceding character is one of period, bang, question mark.  The
recursion is driven by a fuel counter so that it is structural (each
step consumes at least one character, so fuel equal to the length of
the remaining text plus one is never exhausted). -/
def splitSentAux : Nat → Option Char → List Char → List Char → List (List Char)
  | 0, _, acc, rest => [acc.reverse ++ rest]
  | _ + 1, _, acc, [] => [acc.reverse]
  | fuel + 1, prev, acc, c :: cs =>
    if isPyWs c && (prev == some '.' || prev == some '!' || prev == some '?') then
      acc.reverse :: splitSentAux fuel (some ' ') [] (cs.dropWhile isPyWs)
    else
      splitSentAux fuel (some c) (c :: acc) cs

/-- Python re.split on the sentence-boundary pattern used by chunk_text. -/
def pySplitSentences (s : String) : List String :=
  (splitSentAux (s.data.length + 1) none [] s.data).map String.mk

/-- Index of the first occurrence of needle in hay, if any. -/
def subIdx (needle : List Char) : List Char → Option Nat
  | [] => if needle.isPrefixOf ([] : List Char) then some 0 else none
  | c :: t =>
    if needle.isPrefixOf (c :: t) then some 0
    else (subIdx needle t).map (· + 1)

/-- Python str.find: first index of needle in hay, or -1. -/
def pyFind (hay needle : String) : Int :=
  match subIdx needle.data hay.data with
  | some i => (i : Int)
  | none => -1

/-! ## chunk_text (sentence mode) -/

structure SChunk where
  text : String
  chunk_id : Nat
  start : Int
  stop : Int
  is_last : Bool
deriving DecidableEq, Repr

/-- The sentence loop of chunk_text.  State: emitted chunks, the running
chunk as a sentence list, the running length counter, next chunk id.
Returns the final chunks, running chunk and chunk id. -/
def ctGo (text : String) (chunkSize overlap : Nat) (chunks : List SChunk)
    (current : List String) (curLen : Nat) (cid : Nat) :
    List String → List SChunk × List String × Nat
  | [] => (chunks, current, cid)
  | s0 :: rest =>
    let s := pyStrip s0
    if s = "" then ctGo text chunkSize overlap chunks current curLen cid rest
    else if curLen + s.length > chunkSize ∧ current ≠ [] then
      let ct := joinSp current
      let f := pyFind text ct
      let k := overlap / 50
      let ovList := if k = 0 then current else current.drop (current.length - k)
      let ovText := joinSp ovList
      let cur2 := if ovText = s then [s] else [ovText, s]
      ctGo text chunkSize overlap (chunks ++ [⟨ct, cid, f, f + (ct.length : Int), false⟩])
        cur2 (joinSp cur2).length (cid + 1) rest
    else
      ctGo text chunkSize overlap chunks (current ++ [s]) (curLen + s.length + 1) cid rest

/-- The final statement of chunk_text: force is_last on the last chunk. -/
def setLastTrue : List SChunk → List SChunk
  | [] => []
  | [c] => [{ c with is_last := true }]
  | c :: c2 :: rest => c :: setLastTrue (c2 :: rest)

/-- The final-flush block of chunk_text: append the running chunk when
it is non-empty and meets min_chunk_size, marked is_last. -/
def ctFlush (text : String) (minChunkSize : Nat)
    (r : List SChunk × List String × Nat) : List SChunk :=
  if r.2.1 = [] then r.1
  else
    let ct := joinSp r.2.1
    if minChunkSize ≤ ct.length then
      r.1 ++ [⟨ct, r.2.2, pyFind text ct, pyFind text ct + (ct.length : Int), true⟩]
    else r.1

/-- chunk_text from backend/services/chunking.py. -/
def chunkText (t0 : String) (chunkSize overlap minChunkSize : Nat) : List SChunk :=
  let text := pyStrip t0
  if text = "" then []
  else if text.length ≤ chunkSize then
    [⟨text, 0, 0, (text.length : Int), true⟩]
  else
    setLastTrue (ctFlush text minChunkSize
      (ctGo text chunkSize overlap [] [] 0 0 (pySplitSentences text)))

/-! ## process_text_file (line mode) -/

structure TChunk where
  text : String
  chunk_id : Nat
  start : Int
  stop : Int
  is_last : Bool
  line_number : Nat
deriving DecidableEq, Repr

def ptfGo (total : Nat) (i : Nat) : List String → List TChunk
  | [] => []
  | l :: ls =>
    let s := pyStrip l
    if s = "" then ptfGo total (i + 1) ls
    else ⟨s, i, 0, (s.length : Int), decide (i = total - 1), i + 1⟩ :: ptfGo total (i + 1) ls

/-- process_text_file from backend/services/chunking.py, applied to the
list of lines returned by readlines. -/
def processTextFile (lines : List String) : List TChunk :=
  ptfGo lines.length 0 lines

/-! ## process_csv_file (CSV mode) -/

structure CsvChunk where
  text : String
  chunk_id : Nat
  start_row : Int
  end_row : Int
  is_last : Bool
  headers : List String
deriving DecidableEq, Repr

/-- The row loop of process_csv_file.  consumed counts the rows already
taken from the reader, so inside the loop body it equals the Python loop
index i, and after the loop it equals i + 1. -/
def csvGo (chunkSize : Nat) (headers : List String) (consumed : Nat)
    (chunks : List CsvChunk) (current : List String) (curLen : Nat) (cid : Nat) :
    List String → List CsvChunk
  | [] =>
    if current = [] then chunks
    else
      chunks ++ [⟨joinNl current, cid, (consumed : Int) - current.length,
        (consumed : Int) - 1, true, headers⟩]
  | r :: rest =>
    if curLen + r.length > chunkSize ∧ current ≠ [] then
      csvGo chunkSize headers (consumed + 1)
        (chunks ++ [⟨joinNl current, cid, (consumed : Int) - current.length,
          (consumed : Int) - 1, false, headers⟩])
        [r] r.length (cid + 1) rest
    else
      csvGo chunkSize headers (consumed + 1) chunks (current ++ [r])
        (curLen + r.length + 1) cid rest

/-- process_csv_file from backend/services/chunking.py, applied to the
rendered row strings of the data rows, in file order. -/
def processCsvFile (rows : List String) (headers : List String) (chunkSize : Nat) :
    List CsvChunk :=
  csvGo chunkSize headers 0 [] [] 0 0 rows

/-- l partitions the inclusive integer interval from lo to hi - 1 into
consecutive inclusive subranges, in ascending order. -/
def chainFrom (lo : Int) : List (Int × Int) → Int → Prop
  | [], hi => lo = hi
  | p :: rest, hi => p.1 = lo ∧ p.1 ≤ p.2 ∧ chainFrom (p.2 + 1) rest hi

/-! ## The per-chunk workflow of the upload route (backend/app.py) -/

/-- Result dict of translate_text as seen by the caller: the translated
text and whether the dict carries an error key. -/
structure TransResult where
  translated_text : String
  hasError : Bool
deriving DecidableEq, Repr

/-- Result dict of analyze_sentiment as seen by the caller. -/
structure SentResult where
  sentiment : String
  score : ℚ
  polarity : ℚ
  subjectivity : ℚ
deriving DecidableEq, Repr

/-- A chunk as consumed by the upload loop: its text and id, plus the
optional source-carried fields read with dict.get. -/
structure ChunkIn where
  text : String
  chunk_id : Nat
  language : Option String
  rating : Option String
  date : Option String
deriving DecidableEq, Repr

/-- The per-chunk result dict assembled by the upload loop. -/
structure ChunkResult where
  chunk_id : Nat
  original_text : String
  processed_text : String
  detected_language : String
  was_translated : Bool
  sentiment : String
  sentiment_score : ℚ
  rating : Option String
  date : Option String
deriving DecidableEq, Repr

/-- Language resolution (workflow step 3 in upload_file): use the carried
language field unless empty or auto, otherwise call the detector. -/
def resolveLang (detect : String → Except String String) (c : ChunkIn) :
    Except String String :=
  let lang0 := pyLower (c.language.getD "")
  if lang0 = "" ∨ lang0 = "auto" then detect c.text else Except.ok lang0

/-- Conditional translation (workflow step 4 in upload_file): the working
text and the was_translated flag.  The translator call sits in a
try/except, so a raising translator leaves the original text in place. -/
def translateStep (translate : String → String → Except String TransResult)
    (text lang : String) : String × Bool :=
  if lang ≠ "en" then
    match translate text lang with
    | Except.ok tr => if tr.hasError then (text, false) else (tr.translated_text, true)
    | Except.error _ => (text, false)
  else (text, false)

/-- The body of the per-chunk loop in upload_file: skip blank chunks,
resolve the language, conditionally translate, score sentiment, assemble
the result.  Only the translator call is guarded by a try/except; an
exception escaping language resolution or sentiment scoring propagates
out of the loop (Except.bind). -/
def processChunk (detect : String → Except String String)
    (translate : String → String → Except String TransResult)
    (sentiment : String → Except String SentResult) (c : ChunkIn) :
    Except String (Option ChunkResult) :=
  if pyStrip c.text = "" then Except.ok none
  else
    (resolveLang detect c).bind fun detected =>
      let tw := translateStep translate c.text detected
      (sentiment tw.1).bind fun s =>
        Except.ok (some ⟨c.chunk_id, c.text, tw.1, detected, tw.2,
          s.sentiment, s.score, c.rating, c.date⟩)

/-- The whole per-chunk loop of upload_file over the chunk list; an
exception escaping any chunk aborts the batch (the enclosing try of the
route turns it into a 500 response). -/
def processBatch (detect : String → Except String String)
    (translate : String → String → Except String TransResult)
    (sentiment : String → Except String SentResult) :
    List ChunkIn → Except String (List ChunkResult)
  | [] => Except.ok []
  | c :: rest =>
    (processChunk detect translate sentiment c).bind fun o =>
      (processBatch detect translate sentiment rest).bind fun rs =>
        Except.ok (match o with | none => rs | some r => r :: rs)

/-! ## analyze_sentiment (backend/services/sentiment.py) -/

/-- analyze_sentiment: the TextBlob call is an oracle returning polarity
and subjectivity or raising; the catch-all except returns the neutral
default, so the function itself is total. -/
def analyzeSentiment (blob : String → Except String (ℚ × ℚ)) (text : String) :
    SentResult :=
  match blob text with
  | Except.ok ps =>
    let polarity := ps.1
    let label :=
      if polarity > 1/10 then "positive"
      else if polarity < -(1/10) then "negative"
      else "neutral"
    ⟨label, (polarity + 1) / 2, polarity, ps.2⟩
  | Except.error _ => ⟨"neutral", 1/2, 0, 1/2⟩

/-! ## generate_summary and the upload response (backend/app.py) -/

/-- round(x, 1) on exact rationals. -/
def pyRound1 (q : ℚ) : ℚ := ((round (10 * q) : ℤ) : ℚ) / 10

/-- round(x, 3) on exact rationals. -/
def pyRound3 (q : ℚ) : ℚ := ((round (1000 * q) : ℤ) : ℚ) / 1000

/-- The fields of the summary dict that the claims are about.  The topic
list, insight strings and the external augmentation blob are driven by
collaborator calls outside the data model and are not embedded.
sentiment_percentages is none on the early empty-input return, whose
dict has no such key. -/
structure Summary where
  total_reviews_analyzed : Nat
  average_sentiment_score : ℚ
  sentiment_distribution : Nat × Nat × Nat
  sentiment_percentages : Option (ℚ × ℚ × ℚ)
  languages_detected : List String
  translations_performed : Nat
deriving DecidableEq, Repr

/-- generate_summary from backend/app.py.  sentiment_distribution is
(positive, neutral, negative) counts; recognition of a label is the
case-insensitive membership test of the Python dict. -/
def generateSummary (results : List ChunkResult) : Summary :=
  if results = [] then ⟨0, 0, (0, 0, 0), none, [], 0⟩
  else
    let total := results.length
    let avg := (results.map (·.sentiment_score)).sum / total
    let cp := results.countP (fun r => pyLower r.sentiment == "positive")
    let cu := results.countP (fun r => pyLower r.sentiment == "neutral")
    let cn := results.countP (fun r => pyLower r.sentiment == "negative")
    ⟨total, pyRound3 avg, (cp, cu, cn),
      some (pyRound1 ((cp : ℚ) / total * 100), pyRound1 ((cu : ℚ) / total * 100),
        pyRound1 ((cn : ℚ) / total * 100)),
      (results.map (·.detected_language)).dedup,
      results.countP (·.was_translated)⟩

/-- The batch-level figures of the upload response (response_data in
upload_file), computed from the analysis results next to the summary. -/
structure ResponseData where
  total_chunks : Nat
  languages_detected : List String
  translations_performed : Nat
  summary : Summary
deriving DecidableEq, Repr

def responseData (results : List ChunkResult) : ResponseData :=
  ⟨results.length,
    (results.map (·.detected_language)).dedup,
    results.countP (·.was_translated),
    generateSummary results⟩

/-! ## Theorems -/

/-- Claim C10: chunk_text returns the empty list exactly when the input
is empty or whitespace-only, among inputs whose trimmed length fits in
one chunk: a whitespace-only input always yields no chunk, and an input
with content whose trimmed length is at most chunk_size always yields at
least one chunk. -/
theorem c10_chunkText_empty_iff (text : String) (cs ov mn : Nat) :
    (pyStrip text = "" → chunkText text cs ov mn = []) ∧
    (pyStrip text ≠ "" → (pyStrip text).length ≤ cs → chunkText text cs ov mn ≠ []) := by
  constructor
  · intro h
    simp [chunkText, h]
  · intro h1 h2
    simp [chunkText, h1, h2]

/-- Witness for C10 at concrete inputs. -/
theorem c10_witness :
    chunkText "  " 5 0 0 = [] ∧ chunkText " x " 5 0 0 ≠ [] :=
  ⟨(c10_chunkText_empty_iff "  " 5 0 0).1 (by decide),
   (c10_chunkText_empty_iff " x " 5 0 0).2 (by decide) (by decide)⟩

/-- Counterexample to claim C5 as stated: the input " a" has length 2,
which is under the default max_chunk_size of 1000, yet the single chunk
returned has end = 1, not 2, and its text "a" does not span the whole
input: chunk_text trims the input first. -/
theorem c5_counterexample :
    (chunkText " a" 1000 100 50).map (fun c => c.stop) = [1] ∧
    (" a").length = 2 := by
  constructor
  · rfl
  · rfl

/-- Claim C5, amended: for every input whose trimmed text is non-empty
and has length at most chunk_size, chunk_text returns exactly one chunk
whose text is the trimmed input, with start 0, end the trimmed length,
and is_last true. -/
theorem c5_short_input_single_chunk (t : String) (cs ov mn : Nat)
    (h1 : pyStrip t ≠ "") (h2 : (pyStrip t).length ≤ cs) :
    chunkText t cs ov mn =
      [⟨pyStrip t, 0, 0, ((pyStrip t).length : Int), true⟩] := by
  simp [chunkText, h1, h2]

/-- Witness for the amended C5 at a concrete input. -/
theorem c5_witness :
    chunkText "hi" 1000 100 50 =
      [⟨pyStrip "hi", 0, 0, ((pyStrip "hi").length : Int), true⟩] :=
  c5_short_input_single_chunk "hi" 1000 100 50 (by decide) (by decide)

/-- Claim C9: the batch-level figures of the upload response agree with
the tallies of generate_summary: same translation count, same language
set, and total_chunks equals total_reviews_analyzed. -/
theorem c9_response_agrees_with_summary (results : List ChunkResult) :
    (responseData results).translations_performed =
        (generateSummary results).translations_performed ∧
      (responseData results).languages_detected.toFinset =
        (generateSummary results).languages_detected.toFinset ∧
      (responseData results).total_chunks =
        (generateSummary results).total_reviews_analyzed := by
  by_cases h : results = [] <;>
    simp [responseData, generateSummary, h]

/-- A language detector that raises on every input. -/
def detectBoom : String → Except String String := fun _ => Except.error "boom"

/-- A translator that succeeds and returns the text unchanged. -/
def translateOk : String → String → Except String TransResult :=
  fun t _ => Except.ok ⟨t, false⟩

/-- A translator whose result dict carries an error key. -/
def translateFail : String → String → Except String TransResult :=
  fun t _ => Except.ok ⟨t, true⟩

/-- A sentiment scorer that succeeds with the neutral default. -/
def sentNeutralOk : String → Except String SentResult :=
  fun _ => Except.ok ⟨"neutral", 1/2, 0, 1/2⟩

/-- Counterexample to claim C1 as stated: a batch of two non-empty
chunks in which language resolution (step 2) raises is aborted whole
with the exception, instead of the chunks receiving neutral default
results; no per-chunk result at all is returned.  In upload_file, only
the translator call is inside a per-chunk try/except. -/
theorem c1_counterexample :
    processBatch detectBoom translateOk sentNeutralOk
      [⟨"hello", 0, none, none, none⟩, ⟨"world", 1, none, none, none⟩] =
      Except.error "boom" := rfl

/-- Claim C1, amended: only the translation step is guarded at the
per-chunk boundary.  Whenever language resolution and sentiment scoring
return normally (as the implemented detect_language and
analyze_sentiment always do, each having an internal catch-all), the
batch loop returns one result for every chunk with non-blank text, for
an arbitrary, possibly raising, translator; an exception escaping
language resolution or sentiment scoring instead aborts the whole
batch. -/
theorem c1_batch_completes_when_detect_and_sentiment_total
    (d : String → String)
    (translate : String → String → Except String TransResult)
    (s : String → SentResult) (chunks : List ChunkIn) :
    ∃ rs, processBatch (fun t => Except.ok (d t)) translate
        (fun t => Except.ok (s t)) chunks = Except.ok rs ∧
      rs.length = (chunks.filter (fun c => !(pyStrip c.text == ""))).length := by
  induction chunks with
  | nil => exact ⟨[], rfl, rfl⟩
  | cons c rest ih =>
    obtain ⟨rs, h1, h2⟩ := ih
    by_cases hb : pyStrip c.text = ""
    · refine ⟨rs, ?_, ?_⟩
      · simp [processBatch, processChunk, hb, h1, Except.bind]
      · simp [List.filter_cons, hb, h2]
    · have hc : ∃ r, processChunk (fun t => Except.ok (d t)) translate
          (fun t => Except.ok (s t)) c = Except.ok (some r) := by
        by_cases hl : pyLower (c.language.getD "") = "" ∨
            pyLower (c.language.getD "") = "auto"
        · simp [processChunk, resolveLang, hb, hl, Except.bind]
        · simp [processChunk, resolveLang, hb, hl, Except.bind]
      obtain ⟨r, hr⟩ := hc
      refine ⟨r :: rs, ?_, ?_⟩
      · simp [processBatch, hr, h1, Except.bind]
      · simp [List.filter_cons, hb, h2]

/-- Claim C7: when translation is invoked (resolved language is not en)
and fails — the translator result carries an error key, or the
translator raises — the chunk keeps its original text as
processed_text, has was_translated false, and still reaches sentiment
scoring, whose result it records. -/
theorem c7_translation_failure_nonfatal
    (detect : String → Except String String)
    (translate : String → String → Except String TransResult)
    (sentiment : String → Except String SentResult)
    (c : ChunkIn) (lang : String) (s : SentResult)
    (hb : pyStrip c.text ≠ "")
    (hl : resolveLang detect c = Except.ok lang)
    (hen : lang ≠ "en")
    (hfail : (∃ e, translate c.text lang = Except.error e) ∨
      (∃ tr, translate c.text lang = Except.ok tr ∧ tr.hasError = true))
    (hs : sentiment c.text = Except.ok s) :
    processChunk detect translate sentiment c =
      Except.ok (some ⟨c.chunk_id, c.text, c.text, lang, false,
        s.sentiment, s.score, c.rating, c.date⟩) := by
  have htw : translateStep translate c.text lang = (c.text, false) := by
    rcases hfail with ⟨e, he⟩ | ⟨tr, htr, herr⟩
    · simp [translateStep, hen, he]
    · simp [translateStep, hen, htr, herr]
  simp [processChunk, hb, hl, htw, hs, Except.bind]

/-- Witness for C7 at a concrete chunk carrying a French language hint,
with a translator returning an error dict. -/
theorem c7_witness :
    processChunk detectBoom translateFail sentNeutralOk
      ⟨"bonjour", 0, some "fr", none, none⟩ =
      Except.ok (some ⟨0, "bonjour", "bonjour", "fr", false, "neutral",
        1/2, none, none⟩) :=
  c7_translation_failure_nonfatal detectBoom translateFail sentNeutralOk
    ⟨"bonjour", 0, some "fr", none, none⟩ "fr" ⟨"neutral", 1/2, 0, 1/2⟩
    (by decide) rfl (by decide)
    (Or.inr ⟨⟨"bonjour", true⟩, rfl, rfl⟩) rfl

/-! ### Structural lemmas about the chunk_text loop -/

theorem setLastTrue_map_chunk_id (l : List SChunk) :
    (setLastTrue l).map (·.chunk_id) = l.map (·.chunk_id) := by
  induction l with
  | nil => rfl
  | cons c rest ih =>
    cases rest with
    | nil => rfl
    | cons c2 r2 => simpa [setLastTrue] using ih

theorem setLastTrue_length (l : List SChunk) :
    (setLastTrue l).length = l.length := by
  have h := congrArg List.length (setLastTrue_map_chunk_id l)
  simpa using h

theorem ctGo_ids (text : String) (cs ov : Nat) (sents : List String) :
    ∀ chunks current curLen cid, chunks.map (·.chunk_id) = List.range cid →
      (ctGo text cs ov chunks current curLen cid sents).1.map (·.chunk_id) =
        List.range (ctGo text cs ov chunks current curLen cid sents).2.2 := by
  induction sents with
  | nil => intro chunks current curLen cid h; simpa [ctGo] using h
  | cons s0 rest ih =>
    intro chunks current curLen cid h
    simp only [ctGo]
    by_cases hs : pyStrip s0 = ""
    · rw [if_pos hs]
      exact ih _ _ _ _ h
    · rw [if_neg hs]
      by_cases hcond : curLen + (pyStrip s0).length > cs ∧ current ≠ []
      · rw [if_pos hcond]
        exact ih _ _ _ _ (by simp [h, List.range_succ])
      · rw [if_neg hcond]
        exact ih _ _ _ _ h

theorem ctFlush_ids (text : String) (mn : Nat) (r : List SChunk × List String × Nat)
    (h : r.1.map (·.chunk_id) = List.range r.2.2) :
    (ctFlush text mn r).map (·.chunk_id) = List.range (ctFlush text mn r).length := by
  have hlen : r.1.length = r.2.2 := by
    simpa using congrArg List.length h
  by_cases h1 : r.2.1 = []
  · simp only [ctFlush, if_pos h1]
    rw [h, hlen]
  · by_cases h2 : mn ≤ (joinSp r.2.1).length
    · simp [ctFlush, h1, h2, h, hlen, List.range_succ]
    · simp only [ctFlush, if_neg h1]
      rw [if_neg h2, h, hlen]

theorem ptfGo_ids_sublist (total : Nat) (ls : List String) : ∀ i : Nat,
    ((ptfGo total i ls).map (·.chunk_id)).Sublist (List.range' i ls.length) := by
  induction ls with
  | nil => intro i; simp [ptfGo]
  | cons l ls2 ih =>
    intro i
    simp only [ptfGo, List.length_cons]
    rw [List.range'_succ]
    by_cases hs : pyStrip l = ""
    · rw [if_pos hs]
      exact (ih (i + 1)).cons i
    · rw [if_neg hs]
      simpa using (ih (i + 1)).cons₂ i

theorem ptfGo_mem (total : Nat) (ls : List String) : ∀ (i : Nat) (c : TChunk),
    c ∈ ptfGo total i ls → ∃ j, ∃ hj : j < ls.length,
      c.chunk_id = i + j ∧ pyStrip (ls.get ⟨j, hj⟩) = c.text := by
  induction ls with
  | nil => intro i c hc; simp [ptfGo] at hc
  | cons l ls2 ih =>
    intro i c hc
    simp only [ptfGo] at hc
    by_cases hs : pyStrip l = ""
    · rw [if_pos hs] at hc
      obtain ⟨j, hj, h1, h2⟩ := ih (i + 1) c hc
      exact ⟨j + 1, by simpa using Nat.succ_lt_succ hj, by omega, by simpa using h2⟩
    · rw [if_neg hs] at hc
      rcases List.mem_cons.mp hc with h | h
      · refine ⟨0, by simp, ?_, ?_⟩
        · simp [h]
        · simp [h]
      · obtain ⟨j, hj, h1, h2⟩ := ih (i + 1) c h
        exact ⟨j + 1, by simpa using Nat.succ_lt_succ hj, by omega, by simpa using h2⟩

/-- Claim C2, amended: in sentence mode the chunk ids are exactly
0, 1, ..., k - 1 in emission order; in plain-text line mode each chunk
id is the 0-based index of its source line, so ids are strictly
increasing but a blank line does consume a chunk_id — emitted ids can
have gaps and need not start at 0. -/
theorem c2_chunk_ids (t : String) (cs ov mn : Nat) (lines : List String) :
    (chunkText t cs ov mn).map (·.chunk_id) =
        List.range (chunkText t cs ov mn).length ∧
      ((processTextFile lines).map (·.chunk_id)).Pairwise (· < ·) ∧
      ∀ c ∈ processTextFile lines, ∃ hj : c.chunk_id < lines.length,
        pyStrip (lines.get ⟨c.chunk_id, hj⟩) = c.text := by
  refine ⟨?_, ?_, ?_⟩
  · by_cases h0 : pyStrip t = ""
    · simp [chunkText, h0]
    · by_cases h1 : (pyStrip t).length ≤ cs
      · simp only [chunkText, if_neg h0, if_pos h1, List.map_cons, List.map_nil,
          List.length_cons, List.length_nil, List.range_succ, List.range_zero,
          List.nil_append]
      · simp only [chunkText, if_neg h0, if_neg h1]
        rw [setLastTrue_map_chunk_id, setLastTrue_length]
        exact ctFlush_ids _ _ _ (ctGo_ids _ _ _ _ _ _ _ _ rfl)
  · exact (List.pairwise_lt_range' 0 lines.length).sublist
      (ptfGo_ids_sublist lines.length lines 0)
  · intro c hc
    obtain ⟨j, hj, h1, h2⟩ := ptfGo_mem lines.length lines 0 c hc
    have hjj : j = c.chunk_id := by omega
    subst hjj
    exact ⟨hj, h2⟩

/-- Counterexample to claim C2 as stated: a file whose first line is
blank yields a single chunk whose chunk_id is 1, not 0 — the blank line
consumed a chunk_id. -/
theorem c2_counterexample :
    (processTextFile ["\n", "hola\n"]).map (·.chunk_id) = [1] ∧
      (processTextFile ["\n", "hola\n"]).map (·.chunk_id) ≠
        List.range (processTextFile ["\n", "hola\n"]).length := by
  constructor
  · rfl
  · decide

/-- Witness for the amended C2 at a concrete file. -/
theorem c2_witness :
    ∃ hj : (2 : Nat) < (["x\n", "\n", "y\n"] : List String).length,
      pyStrip ((["x\n", "\n", "y\n"] : List String).get ⟨2, hj⟩) = "y" :=
  (c2_chunk_ids "" 0 0 0 ["x\n", "\n", "y\n"]).2.2 ⟨"y", 2, 0, 1, true, 3⟩ (by decide)

/-! ### is_last bookkeeping -/

theorem map_eq_replicate_false {α : Type} (f : α → Bool) (l : List α)
    (h : ∀ c ∈ l, f c = false) :
    l.map f = List.replicate l.length false := by
  induction l with
  | nil => rfl
  | cons c rest ih =>
    have hc := h c (List.mem_cons_self c rest)
    simp only [List.map_cons, List.length_cons, List.replicate_succ, hc]
    rw [ih fun x hx => h x (List.mem_cons_of_mem c hx)]

theorem ctGo_islast_false (text : String) (cs ov : Nat) (sents : List String) :
    ∀ chunks current curLen cid, (∀ c ∈ chunks, c.is_last = false) →
      ∀ c ∈ (ctGo text cs ov chunks current curLen cid sents).1, c.is_last = false := by
  induction sents with
  | nil => intro chunks current curLen cid h; simpa [ctGo] using h
  | cons s0 rest ih =>
    intro chunks current curLen cid h
    simp only [ctGo]
    by_cases hs : pyStrip s0 = ""
    · rw [if_pos hs]
      exact ih _ _ _ _ h
    · rw [if_neg hs]
      by_cases hcond : curLen + (pyStrip s0).length > cs ∧ current ≠ []
      · rw [if_pos hcond]
        refine ih _ _ _ _ ?_
        intro c hc
        rcases List.mem_append.mp hc with h1 | h1
        · exact h c h1
        · simp at h1
          rw [h1]
      · rw [if_neg hcond]
        exact ih _ _ _ _ h

theorem ctFlush_islast (text : String) (mn : Nat) (r : List SChunk × List String × Nat)
    (h : ∀ c ∈ r.1, c.is_last = false) :
    (ctFlush text mn r).map (·.is_last) = List.replicate r.1.length false ∨
      (ctFlush text mn r).map (·.is_last) = List.replicate r.1.length false ++ [true] := by
  by_cases h1 : r.2.1 = []
  · exact Or.inl (by simp only [ctFlush, if_pos h1]; exact map_eq_replicate_false _ _ h)
  · by_cases h2 : mn ≤ (joinSp r.2.1).length
    · refine Or.inr ?_
      simp only [ctFlush, if_neg h1]
      rw [if_pos h2]
      simp only [List.map_append, List.map_cons, List.map_nil]
      rw [map_eq_replicate_false _ _ h]
    · refine Or.inl ?_
      simp only [ctFlush, if_neg h1]
      rw [if_neg h2]
      exact map_eq_replicate_false _ _ h

theorem setLastTrue_map_islast (l : List SChunk) (hl : l ≠ []) :
    (setLastTrue l).map (·.is_last) = (l.map (·.is_last)).dropLast ++ [true] := by
  induction l with
  | nil => exact absurd rfl hl
  | cons c rest ih =>
    cases rest with
    | nil => rfl
    | cons c2 r2 =>
      simp only [setLastTrue, List.map_cons]
      rw [ih (by simp)]
      rw [List.dropLast_cons_of_ne_nil (by simp)]
      rfl

theorem csvGo_islast (cs : Nat) (hs : List String) (rows : List String) :
    ∀ consumed chunks current curLen cid,
      (∀ c ∈ chunks, c.is_last = false) → (current = [] → chunks = []) →
      (csvGo cs hs consumed chunks current curLen cid rows = [] ∨
        ∃ k, (csvGo cs hs consumed chunks current curLen cid rows).map (·.is_last) =
          List.replicate k false ++ [true]) := by
  induction rows with
  | nil =>
    intro consumed chunks current curLen cid h he
    by_cases hc : current = []
    · exact Or.inl (by simp [csvGo, hc, he hc])
    · refine Or.inr ⟨chunks.length, ?_⟩
      simp only [csvGo, if_neg hc, List.map_append, List.map_cons, List.map_nil]
      rw [map_eq_replicate_false _ _ h]
  | cons r rest ih =>
    intro consumed chunks current curLen cid h he
    simp only [csvGo]
    by_cases hcond : curLen + r.length > cs ∧ current ≠ []
    · rw [if_pos hcond]
      refine ih _ _ _ _ _ ?_ (by simp)
      intro c hc
      rcases List.mem_append.mp hc with h1 | h1
      · exact h c h1
      · simp at h1
        rw [h1]
    · rw [if_neg hcond]
      refine ih _ _ _ _ _ h ?_
      intro hcur
      exact absurd hcur (by simp)

theorem ptfGo_cons (total i : Nat) (l : String) (ls : List String) :
    ptfGo total i (l :: ls) =
      if pyStrip l = "" then ptfGo total (i + 1) ls
      else ⟨pyStrip l, i, 0, ((pyStrip l).length : Int), decide (i = total - 1), i + 1⟩ ::
        ptfGo total (i + 1) ls := rfl

theorem ptfGo_islast (total : Nat) (ls : List String) : ∀ i, i + ls.length = total →
    ((pyStrip (ls.getLastD "") = "" →
        ∀ c ∈ ptfGo total i ls, c.is_last = false) ∧
      (pyStrip (ls.getLastD "") ≠ "" →
        ∃ k, (ptfGo total i ls).map (·.is_last) = List.replicate k false ++ [true])) := by
  induction ls with
  | nil =>
    intro i hi
    constructor
    · intro _ c hc
      simp [ptfGo] at hc
    · intro hlast
      exact absurd rfl hlast
  | cons l ls2 ih =>
    intro i hi
    cases ls2 with
    | nil =>
      have hitot : i = total - 1 := by
        simp at hi
        omega
      constructor
      · intro hlast c hc
        simp only [List.getLastD_cons, List.getLastD_nil] at hlast
        simp only [ptfGo, if_pos hlast] at hc
        simp [ptfGo] at hc
      · intro hlast
        simp only [List.getLastD_cons, List.getLastD_nil] at hlast
        refine ⟨0, ?_⟩
        simp only [ptfGo, if_neg hlast]
        simp [hitot]
    | cons l2 ls3 =>
      have hne : i ≠ total - 1 := by
        simp only [List.length_cons] at hi
        omega
      have hih := ih (i + 1) (by simp only [List.length_cons] at hi ⊢; omega)
      have hlast_eq : (l :: l2 :: ls3).getLastD "" = (l2 :: ls3).getLastD "" := by
        simp [List.getLastD_cons]
      constructor
      · intro hlast c hc
        rw [hlast_eq] at hlast
        simp only [ptfGo] at hc
        by_cases hsl : pyStrip l = ""
        · rw [if_pos hsl] at hc
          exact hih.1 hlast c hc
        · rw [if_neg hsl] at hc
          rcases List.mem_cons.mp hc with h | h
          · rw [h]
            simp [hne]
          · exact hih.1 hlast c h
      · intro hlast
        rw [hlast_eq] at hlast
        obtain ⟨k, hk⟩ := hih.2 hlast
        rw [ptfGo_cons]
        by_cases hsl : pyStrip l = ""
        · rw [if_pos hsl]
          exact ⟨k, hk⟩
        · rw [if_neg hsl]
          refine ⟨k + 1, ?_⟩
          rw [List.map_cons, hk]
          simp [hne, List.replicate_succ]

/-- Claim C3, amended: in sentence mode and CSV mode every non-empty
chunk sequence has exactly one chunk with is_last true, namely the last
one (the map of is_last flags is false everywhere except a final true).
In plain-text line mode the final LINE is what gets marked: when the
last line of the file is non-blank, exactly the last emitted chunk is
marked; when the last line is blank (or the file is empty), no emitted
chunk is marked at all. -/
theorem c3_exactly_one_islast (t : String) (cs ov mn : Nat)
    (rows headers lines : List String) :
    (chunkText t cs ov mn ≠ [] → ∃ k,
        (chunkText t cs ov mn).map (·.is_last) = List.replicate k false ++ [true]) ∧
      (processCsvFile rows headers cs ≠ [] → ∃ k,
        (processCsvFile rows headers cs).map (·.is_last) =
          List.replicate k false ++ [true]) ∧
      (pyStrip (lines.getLastD "") = "" →
        ∀ c ∈ processTextFile lines, c.is_last = false) ∧
      (pyStrip (lines.getLastD "") ≠ "" → ∃ k,
        (processTextFile lines).map (·.is_last) = List.replicate k false ++ [true]) := by
  refine ⟨?_, ?_, (ptfGo_islast lines.length lines 0 (by simp)).1,
    (ptfGo_islast lines.length lines 0 (by simp)).2⟩
  · intro hne
    by_cases h0 : pyStrip t = ""
    · exact absurd (by simp [chunkText, h0]) hne
    · by_cases h1 : (pyStrip t).length ≤ cs
      · refine ⟨0, ?_⟩
        simp [chunkText, h0, h1]
      · simp only [chunkText, if_neg h0, if_neg h1] at hne ⊢
        set r := ctGo (pyStrip t) cs ov [] [] 0 0 (pySplitSentences (pyStrip t)) with hr
        have hfl : ∀ c ∈ r.1, c.is_last = false :=
          ctGo_islast_false _ _ _ _ _ _ _ _ (by intro c hc; simp at hc)
        have hfs := ctFlush_islast (pyStrip t) mn r hfl
        have hC2ne : ctFlush (pyStrip t) mn r ≠ [] := by
          intro hh
          apply hne
          rw [hh]
          rfl
        rw [setLastTrue_map_islast _ hC2ne]
        rcases hfs with hA | hA
        · have hlen : (ctFlush (pyStrip t) mn r).length = r.1.length := by
            have h2 := congrArg List.length hA
            simpa using h2
          have hpos : 1 ≤ r.1.length := by
            rcases Nat.eq_zero_or_pos r.1.length with h | h
            · exfalso
              apply hC2ne
              rw [← List.length_eq_zero]
              omega
            · omega
          obtain ⟨m, hm⟩ : ∃ m, r.1.length = m + 1 := ⟨r.1.length - 1, by omega⟩
          refine ⟨m, ?_⟩
          rw [hA, hm, List.replicate_succ', List.dropLast_concat]
        · refine ⟨r.1.length, ?_⟩
          rw [hA, List.dropLast_concat]
  · intro hne
    rcases csvGo_islast cs headers rows 0 [] [] 0 0 (by intro c hc; simp at hc)
      (fun _ => rfl) with h | h
    · exact absurd h hne
    · exact h

/-- Counterexample to claim C3 as stated: a text file whose final line
is blank produces a non-empty chunk sequence in which NO chunk has
is_last true: the code marks line index len - 1, and that line was
skipped as blank. -/
theorem c3_counterexample :
    processTextFile ["a\n", "\n"] ≠ [] ∧
      (processTextFile ["a\n", "\n"]).countP (·.is_last) = 0 := by
  constructor
  · decide
  · rfl

/-- Witness for the amended C3 at a concrete sentence-mode input. -/
theorem c3_witness :
    ∃ k, (chunkText "ab" 5 0 0).map (·.is_last) = List.replicate k false ++ [true] :=
  (c3_exactly_one_islast "ab" 5 0 0 [] [] []).1 (by decide)

theorem setLastTrue_concat (l : List SChunk) (c : SChunk) :
    setLastTrue (l ++ [c]) = l ++ [{ c with is_last := true }] := by
  induction l with
  | nil => rfl
  | cons a l2 ih =>
    cases l2 with
    | nil => rfl
    | cons b l3 =>
      simp only [List.cons_append] at ih ⊢
      rw [setLastTrue, ih]

/-- Counterexample to claim C4 as stated: for the input below with
chunk_size 10, overlap 50, min_chunk_size 5, the loop ends with the
running chunk ["Bb."], whose joined length 3 is below min_chunk_size —
and that final running chunk is NOT flushed: the emitted chunks are the
two earlier ones only, and the second of them gets the forced is_last
instead. -/
theorem c4_counterexample :
    (ctGo "Aaaaaaaaaaa. Bb. Bb." 10 50 [] [] 0 0
        (pySplitSentences "Aaaaaaaaaaa. Bb. Bb.")).2.1 = ["Bb."] ∧
      (chunkText "Aaaaaaaaaaa. Bb. Bb." 10 50 5).map (·.text) =
        ["Aaaaaaaaaaa.", "Aaaaaaaaaaa. Bb."] := by
  constructor
  · decide
  · decide

/-- Claim C4, amended: in the loop regime, the final running chunk is
flushed only when its joined length meets min_chunk_size, in which case
it is the last chunk and is marked is_last true; when it is shorter
than min_chunk_size it is dropped and the output consists of the loop
chunks alone (whose last element then receives the forced is_last). -/
theorem c4_final_flush_iff_min_size (t : String) (cs ov mn : Nat)
    (h0 : pyStrip t ≠ "") (h1 : ¬(pyStrip t).length ≤ cs) :
    let R := ctGo (pyStrip t) cs ov [] [] 0 0 (pySplitSentences (pyStrip t))
    R.2.1 ≠ [] →
      (mn ≤ (joinSp R.2.1).length →
        (chunkText t cs ov mn).getLast? = some
          ⟨joinSp R.2.1, R.2.2, pyFind (pyStrip t) (joinSp R.2.1),
            pyFind (pyStrip t) (joinSp R.2.1) + ((joinSp R.2.1).length : Int), true⟩) ∧
      ((joinSp R.2.1).length < mn →
        (chunkText t cs ov mn).length = R.1.length) := by
  intro R hcur
  constructor
  · intro hmn
    have hfl : ctFlush (pyStrip t) mn R = R.1 ++
        [⟨joinSp R.2.1, R.2.2, pyFind (pyStrip t) (joinSp R.2.1),
          pyFind (pyStrip t) (joinSp R.2.1) + ((joinSp R.2.1).length : Int), true⟩] := by
      simp only [ctFlush]
      rw [if_neg hcur, if_pos hmn]
    simp only [chunkText, if_neg h0, if_neg h1]
    rw [hfl, setLastTrue_concat, List.getLast?_concat]
  · intro hlt
    have hfl : ctFlush (pyStrip t) mn R = R.1 := by
      simp only [ctFlush]
      rw [if_neg hcur, if_neg (not_le.mpr hlt)]
    simp only [chunkText, if_neg h0, if_neg h1]
    rw [hfl, setLastTrue_length]

/-- Witness for the amended C4: same input but with min_chunk_size 2,
so the final running chunk "Bb." is flushed and marked last. -/
theorem c4_witness :
    (chunkText "Aaaaaaaaaaa. Bb. Bb." 10 50 2).getLast? =
      some ⟨"Bb.", 2, 13, 16, true⟩ := by
  have h := c4_final_flush_iff_min_size "Aaaaaaaaaaa. Bb. Bb." 10 50 2
    (by decide) (by decide)
  simp only at h
  have h2 := (h (by decide)).1 (by decide)
  rw [h2]
  decide

theorem chainFrom_append (l : List (Int × Int)) (lo a b : Int)
    (h : chainFrom lo l a) (hab : a ≤ b) :
    chainFrom lo (l ++ [(a, b)]) (b + 1) := by
  induction l generalizing lo with
  | nil =>
    simp only [chainFrom] at h
    exact ⟨h.symm, hab, rfl⟩
  | cons p rest ih =>
    obtain ⟨h1, h2, h3⟩ := h
    exact ⟨h1, h2, ih _ h3⟩

theorem chainFrom_congr_hi {lo hi1 hi2 : Int} {l : List (Int × Int)}
    (h : chainFrom lo l hi1) (he : hi1 = hi2) : chainFrom lo l hi2 := he ▸ h

theorem csvGo_chain (cs : Nat) (hs : List String) (rows : List String) :
    ∀ (consumed : Nat) (chunks : List CsvChunk) (current : List String)
      (curLen cid : Nat),
      current.length ≤ consumed →
      (current = [] → consumed = 0 ∧ chunks = []) →
      chainFrom 0 (chunks.map fun c => (c.start_row, c.end_row))
        ((consumed : Int) - current.length) →
      chainFrom 0 ((csvGo cs hs consumed chunks current curLen cid rows).map
        fun c => (c.start_row, c.end_row)) ((consumed : Int) + rows.length) := by
  induction rows with
  | nil =>
    intro consumed chunks current curLen cid hlen hemp hch
    simp only [csvGo, List.length_nil, Nat.cast_zero, add_zero]
    by_cases hc : current = []
    · rw [if_pos hc]
      obtain ⟨h0, _⟩ := hemp hc
      subst h0
      simpa [hc] using hch
    · rw [if_neg hc]
      have hge : 1 ≤ current.length := List.length_pos.mpr hc
      have happ := chainFrom_append _ 0 ((consumed : Int) - current.length)
        ((consumed : Int) - 1) hch (by omega)
      have hmap : ((chunks ++ [(⟨joinNl current, cid, (consumed : Int) - current.length,
          (consumed : Int) - 1, true, hs⟩ : CsvChunk)]).map fun c => (c.start_row, c.end_row)) =
          (chunks.map fun c => (c.start_row, c.end_row)) ++
            [((consumed : Int) - current.length, (consumed : Int) - 1)] := by
        simp
      rw [hmap]
      exact chainFrom_congr_hi happ (by ring)
  | cons r rest ih =>
    intro consumed chunks current curLen cid hlen hemp hch
    simp only [csvGo]
    by_cases hcond : curLen + r.length > cs ∧ current ≠ []
    · rw [if_pos hcond]
      have hge : 1 ≤ current.length := List.length_pos.mpr hcond.2
      have happ := chainFrom_append _ 0 ((consumed : Int) - current.length)
        ((consumed : Int) - 1) hch (by omega)
      have hch2 : chainFrom 0 ((chunks ++ [(⟨joinNl current, cid,
          (consumed : Int) - current.length, (consumed : Int) - 1, false, hs⟩ : CsvChunk)]).map
            fun c => (c.start_row, c.end_row))
          (((consumed + 1 : Nat) : Int) - (([r] : List String).length : Int)) := by
        have hmap : ((chunks ++ [(⟨joinNl current, cid, (consumed : Int) - current.length,
            (consumed : Int) - 1, false, hs⟩ : CsvChunk)]).map fun c => (c.start_row, c.end_row)) =
            (chunks.map fun c => (c.start_row, c.end_row)) ++
              [((consumed : Int) - current.length, (consumed : Int) - 1)] := by
          simp
        rw [hmap]
        exact chainFrom_congr_hi happ (by push_cast [List.length_append, List.length_cons, List.length_nil]; try ring)
      have hres := ih (consumed + 1) _ [r] r.length (cid + 1)
        (by simp) (by simp) hch2
      exact chainFrom_congr_hi hres (by push_cast [List.length_append, List.length_cons, List.length_nil]; try ring)
    · rw [if_neg hcond]
      have hch2 : chainFrom 0 (chunks.map fun c => (c.start_row, c.end_row))
          (((consumed + 1 : Nat) : Int) - (((current ++ [r]).length : Nat) : Int)) :=
        chainFrom_congr_hi hch (by push_cast [List.length_append, List.length_cons, List.length_nil]; try ring)
      have hres := ih (consumed + 1) chunks (current ++ [r]) (curLen + r.length + 1) cid
        (by simp; omega) (by simp) hch2
      exact chainFrom_congr_hi hres (by push_cast [List.length_append, List.length_cons, List.length_nil]; try ring)

/-- Claim C6: for every CSV input with at least one data row, the
(start_row, end_row) inclusive ranges of the emitted chunks, in chunk
order, partition the data-row indices: the first range starts at row 0,
every range satisfies start_row ≤ end_row, each next range starts at
the previous end_row + 1, and the last range ends at the final data
row, so every data row is covered exactly once. -/
theorem c6_csv_row_partition (rows headers : List String) (cs : Nat)
    (h : rows ≠ []) :
    processCsvFile rows headers cs ≠ [] ∧
      chainFrom 0 ((processCsvFile rows headers cs).map
        fun c => (c.start_row, c.end_row)) (rows.length : Int) := by
  have hch := csvGo_chain cs headers rows 0 [] [] 0 0 (le_refl 0)
    (fun _ => ⟨rfl, rfl⟩) (by simp [chainFrom])
  have hch2 : chainFrom 0 ((processCsvFile rows headers cs).map
      fun c => (c.start_row, c.end_row)) (rows.length : Int) :=
    chainFrom_congr_hi hch (by simp)
  refine ⟨?_, hch2⟩
  intro hemp
  rw [hemp] at hch2
  simp only [List.map_nil, chainFrom] at hch2
  exact h (List.length_eq_zero.mp (by omega))

/-- Witness for C6 at a concrete two-row CSV split into two chunks. -/
theorem c6_witness :
    processCsvFile ["ab", "cd"] ["h"] 3 ≠ [] ∧
      chainFrom 0 ((processCsvFile ["ab", "cd"] ["h"] 3).map
        fun c => (c.start_row, c.end_row)) 2 :=
  c6_csv_row_partition ["ab", "cd"] ["h"] 3 (by decide)

theorem countP_sentiments_sum (results : List ChunkResult)
    (h : ∀ r ∈ results, pyLower r.sentiment = "positive" ∨
      pyLower r.sentiment = "neutral" ∨ pyLower r.sentiment = "negative") :
    results.countP (fun r => pyLower r.sentiment == "positive") +
        results.countP (fun r => pyLower r.sentiment == "neutral") +
        results.countP (fun r => pyLower r.sentiment == "negative") =
      results.length := by
  induction results with
  | nil => rfl
  | cons a l ih =>
    have ha := h a (List.mem_cons_self a l)
    have hl := ih fun r hr => h r (List.mem_cons_of_mem a hr)
    simp only [List.countP_cons, List.length_cons]
    rcases ha with h1 | h1 | h1 <;> simp [h1] <;> omega

theorem pyRound1_sum_near_100 (a b c : ℚ) (h : a + b + c = 100) :
    |pyRound1 a + pyRound1 b + pyRound1 c - 100| ≤ 1 / 10 := by
  have ha : |((round (10 * a) : ℤ) : ℚ) - 10 * a| ≤ 1 / 2 := by
    rw [abs_sub_comm]
    exact abs_sub_round (10 * a)
  have hb : |((round (10 * b) : ℤ) : ℚ) - 10 * b| ≤ 1 / 2 := by
    rw [abs_sub_comm]
    exact abs_sub_round (10 * b)
  have hc : |((round (10 * c) : ℤ) : ℚ) - 10 * c| ≤ 1 / 2 := by
    rw [abs_sub_comm]
    exact abs_sub_round (10 * c)
  have hsum : ((round (10 * a) + round (10 * b) + round (10 * c) : ℤ) : ℚ) - 1000 =
      (((round (10 * a) : ℤ) : ℚ) - 10 * a) + (((round (10 * b) : ℤ) : ℚ) - 10 * b) +
        (((round (10 * c) : ℤ) : ℚ) - 10 * c) := by
    push_cast
    linarith
  have habs : |((round (10 * a) + round (10 * b) + round (10 * c) : ℤ) : ℚ) - 1000| ≤
      3 / 2 := by
    rw [hsum]
    calc |(((round (10 * a) : ℤ) : ℚ) - 10 * a) + (((round (10 * b) : ℤ) : ℚ) - 10 * b) +
        (((round (10 * c) : ℤ) : ℚ) - 10 * c)|
        ≤ |(((round (10 * a) : ℤ) : ℚ) - 10 * a) + (((round (10 * b) : ℤ) : ℚ) - 10 * b)| +
          |((round (10 * c) : ℤ) : ℚ) - 10 * c| := abs_add _ _
      _ ≤ |((round (10 * a) : ℤ) : ℚ) - 10 * a| + |((round (10 * b) : ℤ) : ℚ) - 10 * b| +
          |((round (10 * c) : ℤ) : ℚ) - 10 * c| := by
            have h2 := abs_add (((round (10 * a) : ℤ) : ℚ) - 10 * a)
              (((round (10 * b) : ℤ) : ℚ) - 10 * b)
            linarith
      _ ≤ 3 / 2 := by linarith
  have hint : |round (10 * a) + round (10 * b) + round (10 * c) - 1000| ≤ (1 : ℤ) := by
    by_contra hcon
    push_neg at hcon
    have h2 : (2 : ℤ) ≤ |round (10 * a) + round (10 * b) + round (10 * c) - 1000| := by
      omega
    have h3 : ((|round (10 * a) + round (10 * b) + round (10 * c) - 1000| : ℤ) : ℚ) =
        |((round (10 * a) + round (10 * b) + round (10 * c) : ℤ) : ℚ) - 1000| := by
      push_cast
      rfl
    have h4 : (2 : ℚ) ≤ |((round (10 * a) + round (10 * b) + round (10 * c) : ℤ) : ℚ) -
        1000| := by
      rw [← h3]
      exact_mod_cast h2
    linarith
  have hq : |((round (10 * a) + round (10 * b) + round (10 * c) : ℤ) : ℚ) - 1000| ≤ 1 := by
    have h3 : ((|round (10 * a) + round (10 * b) + round (10 * c) - 1000| : ℤ) : ℚ) =
        |((round (10 * a) + round (10 * b) + round (10 * c) : ℤ) : ℚ) - 1000| := by
      push_cast
      rfl
    rw [← h3]
    exact_mod_cast hint
  have heq : pyRound1 a + pyRound1 b + pyRound1 c - 100 =
      (((round (10 * a) + round (10 * b) + round (10 * c) : ℤ) : ℚ) - 1000) / 10 := by
    unfold pyRound1
    push_cast
    ring
  rw [heq, abs_div]
  have h10 : |(10 : ℚ)| = 10 := by norm_num
  rw [h10]
  linarith

/-- Claim C8: for every non-empty batch of analysis results whose
sentiment labels are ones the distribution recognizes (as every label
produced by analyze_sentiment is), the three rounded sentiment
percentages of the summary sum to 100 within a tolerance of 1/10. -/
theorem c8_percentages_sum_near_100 (results : List ChunkResult)
    (hne : results ≠ [])
    (h : ∀ r ∈ results, pyLower r.sentiment = "positive" ∨
      pyLower r.sentiment = "neutral" ∨ pyLower r.sentiment = "negative") :
    ∃ P : ℚ × ℚ × ℚ, (generateSummary results).sentiment_percentages = some P ∧
      |P.1 + P.2.1 + P.2.2 - 100| ≤ 1 / 10 := by
  simp only [generateSummary, if_neg hne]
  refine ⟨_, rfl, ?_⟩
  apply pyRound1_sum_near_100
  have hsum := countP_sentiments_sum results h
  have hlen : results.length ≠ 0 := by
    intro h0
    exact hne (List.length_eq_zero.mp h0)
  have htot : (results.length : ℚ) ≠ 0 := Nat.cast_ne_zero.mpr hlen
  have hq : ((results.countP (fun r => pyLower r.sentiment == "positive") : ℕ) : ℚ) +
      ((results.countP (fun r => pyLower r.sentiment == "neutral") : ℕ) : ℚ) +
      ((results.countP (fun r => pyLower r.sentiment == "negative") : ℕ) : ℚ) =
      ((results.length : ℕ) : ℚ) := by
    exact_mod_cast hsum
  field_simp
  linarith

/-- Every label analyze_sentiment can produce is recognized by the
distribution count of generate_summary, justifying the label hypothesis
of the percentage theorem for pipeline-produced batches. -/
theorem analyzeSentiment_label_recognized (blob : String → Except String (ℚ × ℚ))
    (text : String) :
    pyLower (analyzeSentiment blob text).sentiment = "positive" ∨
      pyLower (analyzeSentiment blob text).sentiment = "neutral" ∨
      pyLower (analyzeSentiment blob text).sentiment = "negative" := by
  unfold analyzeSentiment
  cases hb : blob text with
  | ok ps =>
    dsimp only
    split_ifs <;> decide
  | error e =>
    dsimp only
    decide

/-- Witness for C8 at a concrete one-element batch. -/
theorem c8_witness :
    ∃ P : ℚ × ℚ × ℚ,
      (generateSummary [⟨0, "t", "t", "en", false, "positive", 1, none,
        none⟩]).sentiment_percentages = some P ∧
        |P.1 + P.2.1 + P.2.2 - 100| ≤ 1 / 10 :=
  c8_percentages_sum_near_100
    [⟨0, "t", "t", "en", false, "positive", 1, none, none⟩]
    (by decide) (by decide)
